import Mathlib

/-
Verification of the TalkerVariability L2-to-L1 repository:
the offline latency analyzer (Results/analyze_latency.py) and the online
trial orchestrator (L2_to_L1.py), embedded shallowly over exact rationals.
Floating point arithmetic is idealized as exact rational arithmetic; the
transcendental np.log10 is abstracted as an explicit function parameter,
with its defining values assumed as hypotheses where a theorem needs them.
-/

/-- Model of the Python builtin round function (banker rounding, half to
even), applied to an exact rational. -/
def pyRound (q : ℚ) : ℤ :=
  let f : ℤ := ⌊q⌋
  let r : ℚ := q - f
  if r < 1/2 then f
  else if 1/2 < r then f + 1
  else if f % 2 = 0 then f else f + 1

/-- Model of np.convolve(xs, np.ones(L)/L, mode="valid"): because the window
is constant, each output of the valid-mode convolution is the sum of a
full-overlap window divided by L.  When the signal is shorter than the
window, valid mode keeps the positions where the signal fully overlaps the
window, each giving the total sum divided by L. -/
def convValidMean (xs : List ℚ) (L : ℕ) : List ℚ :=
  if L ≤ xs.length then
    (List.range (xs.length - L + 1)).map (fun k => ((xs.drop k).take L).sum / L)
  else
    (List.range (L - xs.length + 1)).map (fun _ => xs.sum / L)

/-- Frame length in samples: max(1, int(round(sample_rate * frame_ms / 1000.0)))
from rolling_energy_db. -/
def frameLength (sample_rate frame_ms : ℚ) : ℕ :=
  (max 1 (pyRound (sample_rate * frame_ms / 1000))).toNat

/-- Model of rolling_energy_db: squares the signal, takes a moving average
over the frame window (valid mode), and converts to decibels with a 1e-12
floor.  The np.log10 function is passed in as the parameter log10. -/
def rolling_energy_db (log10 : ℚ → ℚ) (signal : List ℚ) (sample_rate frame_ms : ℚ) :
    List ℚ × ℕ :=
  let L := frameLength sample_rate frame_ms
  let energy := convValidMean (signal.map (fun s => s * s)) L
  (energy.map (fun e => 10 * log10 (max e (1 / 10 ^ 12))), L)

/-- Model of the scan loop inside detect_onset_after, on the boolean
above-threshold array: skip indices that are not above threshold; at the
first above index, stop with none if a full run of min_frames no longer
fits; otherwise accept the index when the next min_frames entries are all
above, and keep scanning when they are not.  Returns the index relative to
the start of the array. -/
def onsetSearch (min_frames : ℕ) : List Bool → Option ℕ
  | [] => none
  | b :: rest =>
    if b then
      if min_frames ≤ rest.length + 1 then
        if ((b :: rest).take min_frames).all (fun x => x) then some 0
        else (onsetSearch min_frames rest).map (· + 1)
      else none
    else (onsetSearch min_frames rest).map (· + 1)

/-- Clamped start index of the scan: min(len(energy_db), max(0, start_sample))
with start_sample = int(round(start_ms / 1000.0 * sample_rate)). -/
def detectStartIdx (len : ℕ) (sample_rate start_ms : ℚ) : ℕ :=
  min len (max 0 (pyRound (start_ms / 1000 * sample_rate))).toNat

/-- Model of detect_onset_after: scan the energy array from the clamped
start index for the first run of min_frames consecutive frames strictly
above threshold_db, and report the center of the first qualifying frame in
milliseconds from the start of the recording. -/
def detect_onset_after (energy_db : List ℚ) (sample_rate : ℚ) (frame_length : ℕ)
    (start_ms threshold_db : ℚ) (min_frames : ℕ) : Option ℚ :=
  let start_idx := detectStartIdx energy_db.length sample_rate start_ms
  let above := (energy_db.drop start_idx).map (fun e => decide (threshold_db < e))
  match onsetSearch min_frames above with
  | none => none
  | some i =>
    some (((start_idx + i : ℕ) + (frame_length : ℚ) / 2) / sample_rate * 1000)

/-- Specification-side predicate: at index i of the energy array, a run of
min_frames consecutive frames fits inside the array and every frame of the
run strictly exceeds threshold_db. -/
def qualifies (energy_db : List ℚ) (threshold_db : ℚ) (min_frames i : ℕ) : Bool :=
  decide (i + min_frames ≤ energy_db.length) &&
    ((energy_db.drop i).take min_frames).all (fun e => decide (threshold_db < e))

/-- Model of np.percentile(xs, 75) with the default linear interpolation:
sort, take rank 0.75 * (n - 1), and interpolate between the two neighboring
order statistics. -/
def percentile75 (xs : List ℚ) : ℚ :=
  let s := List.insertionSort (fun a b : ℚ => a ≤ b) xs
  let n := s.length
  let lower := ((n - 1) * 3) / 4
  let frac : ℚ := (((n - 1) * 3 : ℕ) : ℚ) / 4 - (lower : ℕ)
  let a := s.getD lower 0
  let b := s.getD (lower + 1) a
  a + frac * (b - a)

/-- Input audio of one CSV row, as the analyzer observes it: the WAV file is
absent, fails to read, or yields a mono signal (multi-channel input is
averaged to mono before any use, so the model carries the mono signal) with
its sample rate. -/
inductive AudioData
  | missing : AudioData
  | unreadable : String → AudioData
  | readable : List ℚ → ℚ → AudioData
deriving DecidableEq

/-- One input row of the results table: its audio, the playback_end_ms and
recording_start_ms columns, and the remaining original CSV fields. -/
structure Row where
  audio : AudioData
  playback_end_ms : ℚ
  recording_start_ms : ℚ
  fields : List (String × String)
deriving DecidableEq

/-- Status values assigned by analyze. -/
inductive Status
  | ok : Status
  | missing : Status
  | read_error : Status
  | no_speech_detected : Status
deriving DecidableEq

/-- Output record of analyze for one row.  Fields that the code only adds on
the readable path (dynamic_threshold_db, fallback_used) are Options that are
none on the missing and read_error paths. -/
structure RowResult where
  orig : Row
  playback_end_ms_rel : Option ℚ
  latency_ms_from_playback_end : Option ℚ
  onset_ms_from_recording_start : Option ℚ
  status : Status
  note : String
  dynamic_threshold_db : Option ℚ
  fallback_used : Option Bool
deriving DecidableEq

/-- playback_end_rel = max(0.0, playback_end_ms - recording_start_ms). -/
def playbackEndRel (row : Row) : ℚ :=
  max 0 (row.playback_end_ms - row.recording_start_ms)

/-- Length of the pre-playback-end region:
int(max(1, playback_end_rel / 1000.0 * sample_rate)); the argument is at
least 1, so Python int truncation equals the floor. -/
def preLen (playback_end_rel sample_rate : ℚ) : ℕ :=
  (⌊max 1 (playback_end_rel / 1000 * sample_rate)⌋).toNat

/-- pre_region = energy_db[: int(max(1, playback_end_rel / 1000.0 * sample_rate))]. -/
def preRegion (energy_db : List ℚ) (playback_end_rel sample_rate : ℚ) : List ℚ :=
  energy_db.take (preLen playback_end_rel sample_rate)

/-- Readable path of the per-row body of analyze: compute the smoothed
energy, run the primary detection from the guarded start, run the
adaptive-threshold fallback detection once when the primary pass found
nothing and the pre-playback region is non-empty, and assemble the result
record. -/
def analyzeReadable (log10 : ℚ → ℚ) (threshold_db frame_ms : ℚ) (min_frames : ℕ)
    (guard_ms : ℚ) (row : Row) (signal : List ℚ) (sample_rate : ℚ) : RowResult :=
  let ed := rolling_energy_db log10 signal sample_rate frame_ms
  let energy_db := ed.1
  let frame_length := ed.2
  let playback_end_rel := playbackEndRel row
  let start_ms := playback_end_rel + guard_ms
  let onset0 := detect_onset_after energy_db sample_rate frame_length start_ms
    threshold_db min_frames
  let pre := preRegion energy_db playback_end_rel sample_rate
  let doFallback := onset0.isNone && !pre.isEmpty
  let dynamic_threshold :=
    if doFallback then max (threshold_db - 5) (percentile75 pre + 6) else threshold_db
  let onset :=
    if doFallback then
      detect_onset_after energy_db sample_rate frame_length start_ms
        dynamic_threshold min_frames
    else onset0
  match onset with
  | none =>
    { orig := row, playback_end_ms_rel := some playback_end_rel,
      latency_ms_from_playback_end := none, onset_ms_from_recording_start := none,
      status := Status.no_speech_detected,
      note := "No onset above threshold after playback end",
      dynamic_threshold_db := some dynamic_threshold, fallback_used := some doFallback }
  | some m =>
    { orig := row, playback_end_ms_rel := some playback_end_rel,
      latency_ms_from_playback_end := some (m - playback_end_rel),
      onset_ms_from_recording_start := some m, status := Status.ok, note := "",
      dynamic_threshold_db := some dynamic_threshold, fallback_used := some doFallback }

/-- Model of the per-row body of analyze: missing file and read error short
circuit with their statuses and notes; otherwise the readable path runs. -/
def analyzeRow (log10 : ℚ → ℚ) (threshold_db frame_ms : ℚ) (min_frames : ℕ)
    (guard_ms : ℚ) (row : Row) : RowResult :=
  match row.audio with
  | AudioData.missing =>
    { orig := row, playback_end_ms_rel := none, latency_ms_from_playback_end := none,
      onset_ms_from_recording_start := none, status := Status.missing,
      note := "WAV not found", dynamic_threshold_db := none, fallback_used := none }
  | AudioData.unreadable err =>
    { orig := row, playback_end_ms_rel := none, latency_ms_from_playback_end := none,
      onset_ms_from_recording_start := none, status := Status.read_error,
      note := "read error: " ++ err, dynamic_threshold_db := none, fallback_used := none }
  | AudioData.readable signal sample_rate =>
    analyzeReadable log10 threshold_db frame_ms min_frames guard_ms row signal sample_rate

/-- Model of the loop of analyze over the rows of the input table: each row
produces exactly one result record, in input order. -/
def analyzeAll (log10 : ℚ → ℚ) (threshold_db frame_ms : ℚ) (min_frames : ℕ)
    (guard_ms : ℚ) (rows : List Row) : List RowResult :=
  rows.map (analyzeRow log10 threshold_db frame_ms min_frames guard_ms)

/-- Default row used only as the out-of-range fallback of List.getD in
statements about row indices. -/
def rowDefault : Row :=
  { audio := AudioData.missing, playback_end_ms := 0, recording_start_ms := 0, fields := [] }

/-- Concrete readable row used by witness statements: a constantly loud
mono recording at 1000 Hz with playback ending at recording start. -/
def rowLoud : Row :=
  { audio := AudioData.readable [1, 1, 1, 1] 1000, playback_end_ms := 0,
    recording_start_ms := 0, fields := [] }

/-- Default result record used only as the out-of-range fallback of
List.getD in statements about row indices. -/
def rowResultDefault : RowResult :=
  { orig := rowDefault, playback_end_ms_rel := none, latency_ms_from_playback_end := none,
    onset_ms_from_recording_start := none, status := Status.ok, note := "",
    dynamic_threshold_db := none, fallback_used := none }

/-
Online task (L2_to_L1.py): event timeline, playback-end logging, sticky
recording availability, and relative onsets.
-/

/-- One emitted event of the detailed log, reduced to the fields the claims
are about: the onset column that save_detailed_log sorts on, and a tag
identifying the event (its emission payload). -/
structure Ev where
  onset : ℚ
  tag : ℕ
deriving DecidableEq

/-- Ordering of events by the onset column. -/
def onsetLE (a b : Ev) : Prop := a.onset ≤ b.onset

/-- Strict ordering of events by the onset column. -/
def onsetLT (a b : Ev) : Prop := a.onset < b.onset

instance : DecidableRel onsetLE := fun a b => inferInstanceAs (Decidable (a.onset ≤ b.onset))

instance : DecidableRel onsetLT := fun a b => inferInstanceAs (Decidable (a.onset < b.onset))

instance : IsTotal Ev onsetLE := ⟨fun a b => le_total a.onset b.onset⟩

instance : IsTrans Ev onsetLE := ⟨fun _ _ _ h1 h2 => le_trans h1 h2⟩

instance : IsAntisymm Ev onsetLT := ⟨fun _ _ h1 h2 => absurd h2 (lt_asymm h1)⟩

/-- Model of save_detailed_log persisting the emitted events: the pandas
call sort_values(by="onset") with its default sort kind guarantees exactly
that the output is a permutation of the input ordered by the onset column
(the default quicksort kind is documented as not stable), so the persisted
log is modelled as the relation between the emitted sequence and any
permutation of it that is sorted by onset. -/
def saveValid (inp out : List Ev) : Prop :=
  out.Perm inp ∧ out.Sorted onsetLE

instance (inp out : List Ev) : Decidable (saveValid inp out) :=
  inferInstanceAs (Decidable (_ ∧ _))

/-- Stable sort of the emitted events by onset, ties broken by original
emission order: this is what the claim asserts save_detailed_log produces. -/
def stableByOnset (inp : List Ev) : List Ev :=
  List.insertionSort onsetLE inp

/-- State of the playback-end bookkeeping inside run_trial:
playback_end_logged, playback_end_time, and how many audio_playback_end
events have been appended to the detailed log for this trial. -/
structure PlayState where
  endLogged : Bool
  endTime : Option ℚ
  endEvents : ℕ
deriving DecidableEq

/-- Initial playback-end state at the top of the stimulus window. -/
def initPlayState : PlayState :=
  { endLogged := false, endTime := none, endEvents := 0 }

/-- One iteration of the stimulus-window polling loop, given whether a
playback channel exists, whether the channel reports busy at this tick, and
the wall-clock time of the tick: the first time the channel is observed
inactive, the audio_playback_end event is appended and the logged flag and
end time are set. -/
def pollStep (hasChannel : Bool) (busy : Bool) (t : ℚ) (s : PlayState) : PlayState :=
  if hasChannel && !s.endLogged && !busy then
    { endLogged := true, endTime := some t, endEvents := s.endEvents + 1 }
  else s

/-- The stimulus-window polling loop over a finite sequence of observed
(busy, time) ticks. -/
def stimulusLoop (hasChannel : Bool) (polls : List (Bool × ℚ)) (s : PlayState) : PlayState :=
  polls.foldl (fun s p => pollStep hasChannel p.1 p.2 s) s

/-- The post-window block of run_trial: the channel is stopped if still
busy (no event), and if playback had started but no playback end time was
recorded during the window, a forced audio_playback_end event is appended. -/
def forceEnd (started : Bool) (tEnd : ℚ) (s : PlayState) : PlayState :=
  if started && s.endTime.isNone then
    { endLogged := true, endTime := some tEnd, endEvents := s.endEvents + 1 }
  else s

/-- Playback-end bookkeeping of one full trial: the polling loop over the
stimulus window followed by the forced end after the window. -/
def runTrialPlayback (hasChannel started : Bool) (polls : List (Bool × ℚ))
    (tEnd : ℚ) : PlayState :=
  forceEnd started tEnd (stimulusLoop hasChannel polls initPlayState)

/-- The recording phase of one trial (run_trial lines guarded by
self.audio_available): when the flag is up a recording start is attempted,
and a start failure clears the flag; when the flag is down no attempt is
made.  Returns (attempted, flag afterwards). -/
def recordPhase (avail : Bool) (recFails : Bool) : Bool × Bool :=
  if avail then (true, if recFails then false else true) else (false, avail)

/-- Session trace over a list of trials, each tagged with whether its
recording start would fail: for each trial, whether a recording start was
attempted and the value of the availability flag after the trial. -/
def sessionTrace : Bool → List Bool → List (Bool × Bool)
  | _, [] => []
  | avail, f :: rest =>
    let step := recordPhase avail f
    step :: sessionTrace step.2 rest

/-- Model of the expression (t - self.trigger_time if self.trigger_time
else 0) used for every onset in run_trial: None and the Python-falsy 0.0
trigger give 0, any other trigger gives wall clock minus trigger. -/
def pyRelOnset (trigger : Option ℚ) (t : ℚ) : ℚ :=
  match trigger with
  | none => 0
  | some tr => if tr = 0 then 0 else t - tr

/-- Onset of the trial_start event captured at absolute time tAbsStart. -/
def trialStartOnset (trigger : Option ℚ) (tAbsStart : ℚ) : ℚ :=
  pyRelOnset trigger tAbsStart

/-- Onset of the trial_end event captured at absolute time tAbsEnd. -/
def trialEndOnset (trigger : Option ℚ) (tAbsEnd : ℚ) : ℚ :=
  pyRelOnset trigger tAbsEnd

/-
Theorems.  Helper lemmas come first, then one theorem per claim, each with
its claim id in the doc comment.
-/

/-- Invariant of the playback-end bookkeeping: the logged flag mirrors the
presence of an end time, and the number of appended playback-end events is
one exactly when an end time has been recorded. -/
def PlayInv (s : PlayState) : Prop :=
  s.endLogged = s.endTime.isSome ∧ s.endEvents = (if s.endLogged then 1 else 0)

theorem pollStep_inv (hasChannel busy : Bool) (t : ℚ) (s : PlayState)
    (h : PlayInv s) : PlayInv (pollStep hasChannel busy t s) := by
  unfold pollStep
  by_cases hc : (hasChannel && !s.endLogged && !busy) = true
  · have hlog : s.endLogged = false := by
      simp only [Bool.and_eq_true, Bool.not_eq_true'] at hc
      exact hc.1.2
    simp only [hc, if_true]
    refine ⟨by simp, ?_⟩
    have := h.2
    rw [hlog] at this
    simp only [if_false, Bool.false_eq_true] at this
    simp [this]
  · simp only [hc]
    simpa using h

theorem stimulusLoop_inv (hasChannel : Bool) (polls : List (Bool × ℚ)) (s : PlayState)
    (h : PlayInv s) : PlayInv (stimulusLoop hasChannel polls s) := by
  induction polls generalizing s with
  | nil => exact h
  | cons p rest ih =>
    have : stimulusLoop hasChannel (p :: rest) s =
        stimulusLoop hasChannel rest (pollStep hasChannel p.1 p.2 s) := rfl
    rw [this]
    exact ih _ (pollStep_inv _ _ _ _ h)

theorem playInv_le_one (s : PlayState) (h : PlayInv s) : s.endEvents ≤ 1 := by
  rcases h with ⟨-, h2⟩
  rw [h2]
  split <;> omega

/-- C6: at most one audio_playback_end event is appended to the detailed
log per trial, whether the end of playback is first observed inactive by
the polling loop during the stimulus window or forced after the window
ends; the same bound already holds for an aborted trial that never reaches
the forced-end block. -/
theorem playback_end_at_most_once (hasChannel started : Bool)
    (polls : List (Bool × ℚ)) (tEnd : ℚ) :
    (runTrialPlayback hasChannel started polls tEnd).endEvents ≤ 1 ∧
    (stimulusLoop hasChannel polls initPlayState).endEvents ≤ 1 := by
  have hinit : PlayInv initPlayState := by constructor <;> rfl
  have hloop := stimulusLoop_inv hasChannel polls initPlayState hinit
  refine ⟨?_, playInv_le_one _ hloop⟩
  unfold runTrialPlayback forceEnd
  set s := stimulusLoop hasChannel polls initPlayState with hs
  by_cases hc : (started && s.endTime.isNone) = true
  · simp only [hc, if_true]
    rcases hloop with ⟨h1, h2⟩
    have hnone : s.endTime.isSome = false := by
      simp only [Bool.and_eq_true] at hc
      simp [Option.isNone_iff_eq_none.mp hc.2]
    rw [h2, h1, hnone]
    simp
  · simp only [hc]
    exact playInv_le_one _ hloop

theorem sessionTrace_length (init : Bool) (fails : List Bool) :
    (sessionTrace init fails).length = fails.length := by
  induction fails generalizing init with
  | nil => rfl
  | cons f rest ih => simp [sessionTrace, ih]

theorem sessionTrace_false (fails : List Bool) :
    sessionTrace false fails = fails.map (fun _ => (false, false)) := by
  induction fails with
  | nil => rfl
  | cons f rest ih => simp [sessionTrace, recordPhase, ih]

theorem sessionTrace_drop (init : Bool) (fails : List Bool) (i : ℕ)
    (h : i < fails.length) :
    (sessionTrace init fails).drop (i + 1) =
      sessionTrace ((sessionTrace init fails).getD i (false, false)).2
        (fails.drop (i + 1)) := by
  induction fails generalizing init i with
  | nil => simp at h
  | cons f rest ih =>
    cases i with
    | zero => rfl
    | succ i' =>
      have h' : i' < rest.length := by simpa using h
      have := ih (recordPhase init f).2 i' h'
      simpa [sessionTrace] using this

theorem sessionTrace_attempt_fail (init : Bool) (fails : List Bool) (i : ℕ)
    (h : i < fails.length)
    (hatt : ((sessionTrace init fails).getD i (false, false)).1 = true)
    (hf : fails.getD i false = true) :
    ((sessionTrace init fails).getD i (false, false)).2 = false := by
  induction fails generalizing init i with
  | nil => simp at h
  | cons f rest ih =>
    cases i with
    | zero =>
      cases init with
      | false => simp [sessionTrace, recordPhase] at hatt
      | true =>
        have hf0 : f = true := by simpa using hf
        simp [sessionTrace, recordPhase, hf0]
    | succ i' =>
      have h' : i' < rest.length := by simpa using h
      exact ih (recordPhase init f).2 i' h' (by simpa [sessionTrace] using hatt)
        (by simpa using hf)

/-- C7: a recording-start failure is sticky for the session.  If trial i
attempted to start a recording and that start failed, then for every later
trial j the availability flag is false and no recording start is attempted. -/
theorem recording_failure_sticky (init : Bool) (fails : List Bool) (i j : ℕ)
    (hij : i < j) (hj : j < fails.length)
    (hatt : ((sessionTrace init fails).getD i (false, false)).1 = true)
    (hf : fails.getD i false = true) :
    ((sessionTrace init fails).getD j (false, false)).1 = false ∧
    ((sessionTrace init fails).getD j (false, false)).2 = false := by
  have hi : i < fails.length := lt_trans hij hj
  have hafter : ((sessionTrace init fails).getD i (false, false)).2 = false :=
    sessionTrace_attempt_fail init fails i hi hatt hf
  have hdrop := sessionTrace_drop init fails i hi
  rw [hafter, sessionTrace_false] at hdrop
  have hlen : (sessionTrace init fails).length = fails.length :=
    sessionTrace_length init fails
  have hsplit : i + 1 + (j - i - 1) = j := by omega
  have hgd : (sessionTrace init fails).getD j (false, false) =
      ((sessionTrace init fails).drop (i + 1)).getD (j - i - 1) (false, false) := by
    rw [List.getD_eq_getElem?_getD, List.getD_eq_getElem?_getD, List.getElem?_drop,
      hsplit]
  rw [hgd, hdrop]
  have hjlt : j - i - 1 < ((fails.drop (i + 1)).map (fun _ => (false, false))).length := by
    simp only [List.length_map, List.length_drop]
    omega
  have hmem : ((fails.drop (i + 1)).map (fun _ => (false, false))).getD (j - i - 1)
      (false, false) = (false, false) := by
    rw [List.getD_eq_getElem _ _ hjlt, List.getElem_map]
  rw [hmem]
  exact ⟨rfl, rfl⟩

/-- C7 witness: a two-trial session whose first trial attempts recording
and fails leaves the second trial with the flag down and no attempt. -/
theorem recording_failure_sticky_witness :
    ((sessionTrace true [true, false]).getD 1 (false, false)).1 = false ∧
    ((sessionTrace true [true, false]).getD 1 (false, false)).2 = false :=
  recording_failure_sticky true [true, false] 0 1 (by decide) (by decide)
    (by decide) (by decide)

/-- C8: for a completed trial whose wall clock is non-decreasing between
the trial_start capture and the trial_end capture, the onset of the
trial_end event is at least the onset of the matching trial_start event;
with no trigger reference both onsets are 0, and with a (nonzero) trigger
reference both onsets are wall clock minus the same trigger time. -/
theorem trial_end_onset_ge_trial_start (trigger : Option ℚ) (tS tE : ℚ)
    (h : tS ≤ tE) :
    trialStartOnset trigger tS ≤ trialEndOnset trigger tE ∧
    (trialStartOnset none tS = 0 ∧ trialEndOnset none tE = 0) ∧
    (∀ tr : ℚ, tr ≠ 0 →
      trialStartOnset (some tr) tS = tS - tr ∧
      trialEndOnset (some tr) tE = tE - tr) := by
  refine ⟨?_, ⟨rfl, rfl⟩, fun tr htr =>
    ⟨by simp [trialStartOnset, pyRelOnset, htr], by simp [trialEndOnset, pyRelOnset, htr]⟩⟩
  cases trigger with
  | none => simp [trialStartOnset, trialEndOnset, pyRelOnset]
  | some tr =>
    by_cases htr : tr = 0
    · simp [trialStartOnset, trialEndOnset, pyRelOnset, htr]
    · simp only [trialStartOnset, trialEndOnset, pyRelOnset, htr, if_false]
      linarith

/-- C8 witness at a concrete trigger and concrete capture times. -/
theorem trial_end_onset_ge_trial_start_witness :
    trialStartOnset (some 2) 3 ≤ trialEndOnset (some 2) 5 :=
  (trial_end_onset_ge_trial_start (some 2) 3 5 (by norm_num)).1

theorem analyzeRow_orig (log10 : ℚ → ℚ) (threshold_db frame_ms : ℚ)
    (min_frames : ℕ) (guard_ms : ℚ) (row : Row) :
    (analyzeRow log10 threshold_db frame_ms min_frames guard_ms row).orig = row := by
  unfold analyzeRow
  split
  · rfl
  · rfl
  · unfold analyzeReadable
    dsimp only
    split <;> rfl

theorem analyzeAll_getD (log10 : ℚ → ℚ) (threshold_db frame_ms : ℚ)
    (min_frames : ℕ) (guard_ms : ℚ) (rows : List Row) (i : ℕ)
    (hi : i < rows.length) :
    (analyzeAll log10 threshold_db frame_ms min_frames guard_ms rows).length =
      rows.length ∧
    (analyzeAll log10 threshold_db frame_ms min_frames guard_ms rows).getD i
        rowResultDefault =
      analyzeRow log10 threshold_db frame_ms min_frames guard_ms
        (rows.getD i rowDefault) := by
  refine ⟨by simp [analyzeAll], ?_⟩
  have hlen : i <
      (analyzeAll log10 threshold_db frame_ms min_frames guard_ms rows).length := by
    simpa [analyzeAll] using hi
  rw [List.getD_eq_getElem _ _ hlen]
  unfold analyzeAll
  rw [List.getElem_map,
    ← List.getD_eq_getElem _ rowDefault (by simpa [analyzeAll] using hlen)]

/-- C9: the latency summary has exactly one output record per input row, in
input order, and each output record carries its input row (hence all of its
original fields) unchanged. -/
theorem summary_preserves_rows (log10 : ℚ → ℚ) (threshold_db frame_ms : ℚ)
    (min_frames : ℕ) (guard_ms : ℚ) (rows : List Row) :
    (analyzeAll log10 threshold_db frame_ms min_frames guard_ms rows).length =
      rows.length ∧
    ∀ i, i < rows.length →
      (analyzeAll log10 threshold_db frame_ms min_frames guard_ms rows).getD i
          rowResultDefault =
        analyzeRow log10 threshold_db frame_ms min_frames guard_ms
          (rows.getD i rowDefault) ∧
      ((analyzeAll log10 threshold_db frame_ms min_frames guard_ms rows).getD i
          rowResultDefault).orig = rows.getD i rowDefault ∧
      ((analyzeAll log10 threshold_db frame_ms min_frames guard_ms rows).getD i
          rowResultDefault).orig.fields = (rows.getD i rowDefault).fields := by
  refine ⟨by simp [analyzeAll], fun i hi => ?_⟩
  have hmap := (analyzeAll_getD log10 threshold_db frame_ms min_frames guard_ms
    rows i hi).2
  refine ⟨hmap, ?_, ?_⟩
  · rw [hmap, analyzeRow_orig]
  · rw [hmap, analyzeRow_orig]

/-- C9 witness at a concrete one-row table. -/
theorem summary_preserves_rows_witness :
    ((analyzeAll (fun _ => 0) (-40) 10 4 50 [rowDefault]).getD 0
        rowResultDefault).orig = [rowDefault].getD 0 rowDefault :=
  ((summary_preserves_rows (fun _ => 0) (-40) 10 4 50 [rowDefault]).2 0
    (by decide)).2.1

theorem analyzeRow_missing (log10 : ℚ → ℚ) (threshold_db frame_ms : ℚ)
    (min_frames : ℕ) (guard_ms : ℚ) (row : Row)
    (h : row.audio = AudioData.missing) :
    (analyzeRow log10 threshold_db frame_ms min_frames guard_ms row).status =
      Status.missing ∧
    (analyzeRow log10 threshold_db frame_ms min_frames guard_ms row).note =
      "WAV not found" := by
  unfold analyzeRow
  rw [h]
  exact ⟨rfl, rfl⟩

theorem analyzeRow_unreadable (log10 : ℚ → ℚ) (threshold_db frame_ms : ℚ)
    (min_frames : ℕ) (guard_ms : ℚ) (row : Row) (err : String)
    (h : row.audio = AudioData.unreadable err) :
    (analyzeRow log10 threshold_db frame_ms min_frames guard_ms row).status =
      Status.read_error ∧
    (analyzeRow log10 threshold_db frame_ms min_frames guard_ms row).note =
      "read error: " ++ err := by
  unfold analyzeRow
  rw [h]
  exact ⟨rfl, rfl⟩

/-- C5: a row whose WAV file does not exist is marked missing, a row whose
WAV file is unreadable is marked read_error with the underlying error in
the note, and in both cases the batch continues: the summary is total, with
one result record per input row in input order. -/
theorem error_rows_isolated (log10 : ℚ → ℚ) (threshold_db frame_ms : ℚ)
    (min_frames : ℕ) (guard_ms : ℚ) (rows : List Row) (i : ℕ)
    (hi : i < rows.length) :
    (analyzeAll log10 threshold_db frame_ms min_frames guard_ms rows).length =
      rows.length ∧
    (analyzeAll log10 threshold_db frame_ms min_frames guard_ms rows).getD i
        rowResultDefault =
      analyzeRow log10 threshold_db frame_ms min_frames guard_ms
        (rows.getD i rowDefault) ∧
    ((rows.getD i rowDefault).audio = AudioData.missing →
      ((analyzeAll log10 threshold_db frame_ms min_frames guard_ms rows).getD i
          rowResultDefault).status = Status.missing ∧
      ((analyzeAll log10 threshold_db frame_ms min_frames guard_ms rows).getD i
          rowResultDefault).note = "WAV not found") ∧
    (∀ err : String, (rows.getD i rowDefault).audio = AudioData.unreadable err →
      ((analyzeAll log10 threshold_db frame_ms min_frames guard_ms rows).getD i
          rowResultDefault).status = Status.read_error ∧
      ((analyzeAll log10 threshold_db frame_ms min_frames guard_ms rows).getD i
          rowResultDefault).note = "read error: " ++ err) := by
  obtain ⟨hlen, hmap⟩ :=
    analyzeAll_getD log10 threshold_db frame_ms min_frames guard_ms rows i hi
  refine ⟨hlen, hmap, fun hm => ?_, fun err hu => ?_⟩
  · rw [hmap]
    exact analyzeRow_missing log10 threshold_db frame_ms min_frames guard_ms _ hm
  · rw [hmap]
    exact analyzeRow_unreadable log10 threshold_db frame_ms min_frames guard_ms _ err hu

/-- C5 witness: a concrete three-row batch with a missing first row and an
unreadable second row still yields a full-length summary with the two error
statuses and notes in place. -/
theorem error_rows_isolated_witness :
    ((analyzeAll (fun _ => 0) (-40) 10 4 50
        [rowDefault,
         { audio := AudioData.unreadable "boom", playback_end_ms := 0,
           recording_start_ms := 0, fields := [] },
         { audio := AudioData.readable [1] 1000, playback_end_ms := 0,
           recording_start_ms := 0, fields := [] }]).getD 1
        rowResultDefault).status = Status.read_error ∧
    ((analyzeAll (fun _ => 0) (-40) 10 4 50
        [rowDefault,
         { audio := AudioData.unreadable "boom", playback_end_ms := 0,
           recording_start_ms := 0, fields := [] },
         { audio := AudioData.readable [1] 1000, playback_end_ms := 0,
           recording_start_ms := 0, fields := [] }]).getD 1
        rowResultDefault).note = "read error: " ++ "boom" :=
  (error_rows_isolated (fun _ => 0) (-40) 10 4 50
    [rowDefault,
     { audio := AudioData.unreadable "boom", playback_end_ms := 0,
       recording_start_ms := 0, fields := [] },
     { audio := AudioData.readable [1] 1000, playback_end_ms := 0,
       recording_start_ms := 0, fields := [] }] 1 (by norm_num)).2.2.2 "boom" rfl

theorem analyzeRow_readable (log10 : ℚ → ℚ) (threshold_db frame_ms : ℚ)
    (min_frames : ℕ) (guard_ms : ℚ) (row : Row) (signal : List ℚ)
    (sample_rate : ℚ) (h : row.audio = AudioData.readable signal sample_rate) :
    analyzeRow log10 threshold_db frame_ms min_frames guard_ms row =
      analyzeReadable log10 threshold_db frame_ms min_frames guard_ms row
        signal sample_rate := by
  unfold analyzeRow
  rw [h]

/-- C2: on a readable recording where the primary pass finds no onset and
the pre-playback-end energy region is non-empty, exactly one fallback pass
runs: the result records fallback_used = true and the dynamic threshold
max(threshold_db - 5, percentile75(pre) + 6), which is never below the noise
floor plus 6 dB, and the reported onset is exactly the output of re-running
the same scan from the same guarded start with that dynamic threshold. -/
theorem fallback_single_pass (log10 : ℚ → ℚ) (threshold_db frame_ms : ℚ)
    (min_frames : ℕ) (guard_ms : ℚ) (row : Row) (signal : List ℚ)
    (sample_rate : ℚ)
    (hrow : row.audio = AudioData.readable signal sample_rate)
    (hnone : detect_onset_after (rolling_energy_db log10 signal sample_rate frame_ms).1
      sample_rate (rolling_energy_db log10 signal sample_rate frame_ms).2
      (playbackEndRel row + guard_ms) threshold_db min_frames = none)
    (hpre : preRegion (rolling_energy_db log10 signal sample_rate frame_ms).1
      (playbackEndRel row) sample_rate ≠ []) :
    (analyzeRow log10 threshold_db frame_ms min_frames guard_ms row).fallback_used =
      some true ∧
    (analyzeRow log10 threshold_db frame_ms min_frames guard_ms row).dynamic_threshold_db =
      some (max (threshold_db - 5)
        (percentile75 (preRegion (rolling_energy_db log10 signal sample_rate frame_ms).1
          (playbackEndRel row) sample_rate) + 6)) ∧
    percentile75 (preRegion (rolling_energy_db log10 signal sample_rate frame_ms).1
        (playbackEndRel row) sample_rate) + 6 ≤
      max (threshold_db - 5)
        (percentile75 (preRegion (rolling_energy_db log10 signal sample_rate frame_ms).1
          (playbackEndRel row) sample_rate) + 6) ∧
    (analyzeRow log10 threshold_db frame_ms min_frames
        guard_ms row).onset_ms_from_recording_start =
      detect_onset_after (rolling_energy_db log10 signal sample_rate frame_ms).1
        sample_rate (rolling_energy_db log10 signal sample_rate frame_ms).2
        (playbackEndRel row + guard_ms)
        (max (threshold_db - 5)
          (percentile75 (preRegion (rolling_energy_db log10 signal sample_rate frame_ms).1
            (playbackEndRel row) sample_rate) + 6)) min_frames := by
  have hpreb : (preRegion (rolling_energy_db log10 signal sample_rate frame_ms).1
      (playbackEndRel row) sample_rate).isEmpty = false := by
    simpa [List.isEmpty_iff] using hpre
  rw [analyzeRow_readable log10 threshold_db frame_ms min_frames guard_ms row
    signal sample_rate hrow]
  unfold analyzeReadable
  dsimp only
  rw [hnone]
  simp only [Option.isNone_none, hpreb, Bool.not_false, Bool.and_self, if_true]
  refine ⟨?_, ?_, le_max_right _ _, ?_⟩
  · split <;> rfl
  · split <;> rfl
  · generalize detect_onset_after _ _ _ _ _ _ = d
    cases d <;> rfl

/-- C2 witness: a concrete silent recording whose primary pass finds
nothing and whose pre-playback region is non-empty takes the fallback pass. -/
theorem fallback_single_pass_witness :
    (analyzeRow (fun _ => -12) (-40) 1 4 0
        { audio := AudioData.readable [0, 0, 0, 0, 0] 1000, playback_end_ms := 0,
          recording_start_ms := 0, fields := [] }).fallback_used = some true :=
  (fallback_single_pass (fun _ => -12) (-40) 1 4 0
    { audio := AudioData.readable [0, 0, 0, 0, 0] 1000, playback_end_ms := 0,
      recording_start_ms := 0, fields := [] } [0, 0, 0, 0, 0] 1000 rfl
    (by norm_num [detect_onset_after, detectStartIdx, pyRound, onsetSearch,
      rolling_energy_db, frameLength, convValidMean, playbackEndRel,
      List.range_succ])
    (by norm_num [preRegion, preLen, playbackEndRel, rolling_energy_db,
      frameLength, convValidMean, pyRound, List.range_succ])).1

theorem convValidMean_length (xs : List ℚ) (L : ℕ) :
    (convValidMean xs L).length =
      if L ≤ xs.length then xs.length - L + 1 else L - xs.length + 1 := by
  unfold convValidMean
  split <;> simp

theorem convValidMean_ne_nil (xs : List ℚ) (L : ℕ) : convValidMean xs L ≠ [] := by
  apply List.ne_nil_of_length_pos
  rw [convValidMean_length]
  split <;> omega

theorem convValidMean_zero (xs : List ℚ) (L : ℕ) (hz : ∀ x ∈ xs, x = 0) :
    ∀ y ∈ convValidMean xs L, y = 0 := by
  intro y hy
  unfold convValidMean at hy
  split at hy <;> rcases List.mem_map.mp hy with ⟨k, -, rfl⟩
  · have hsum : ((xs.drop k).take L).sum = 0 :=
      List.sum_eq_zero fun x hx => hz x (List.mem_of_mem_drop (List.mem_of_mem_take hx))
    rw [hsum, zero_div]
  · have hsum : xs.sum = 0 := List.sum_eq_zero hz
    rw [hsum, zero_div]

theorem rolling_energy_db_const (log10 : ℚ → ℚ) (signal : List ℚ)
    (sample_rate frame_ms : ℚ) (hz : ∀ s ∈ signal, s = 0) :
    ∀ y ∈ (rolling_energy_db log10 signal sample_rate frame_ms).1,
      y = 10 * log10 (1 / 10 ^ 12) := by
  intro y hy
  unfold rolling_energy_db at hy
  dsimp only at hy
  rcases List.mem_map.mp hy with ⟨e, he, rfl⟩
  have he0 : e = 0 := by
    refine convValidMean_zero _ _ ?_ e he
    intro x hx
    rcases List.mem_map.mp hx with ⟨s, hs, rfl⟩
    rw [hz s hs]
    ring
  rw [he0, max_eq_right (by norm_num : (0 : ℚ) ≤ 1 / 10 ^ 12)]

theorem rolling_energy_db_ne_nil (log10 : ℚ → ℚ) (signal : List ℚ)
    (sample_rate frame_ms : ℚ) :
    (rolling_energy_db log10 signal sample_rate frame_ms).1 ≠ [] := by
  unfold rolling_energy_db
  dsimp only
  intro h
  exact convValidMean_ne_nil _ _ (List.map_eq_nil_iff.mp h)

theorem onsetSearch_all_false (k : ℕ) (l : List Bool) (h : ∀ b ∈ l, b = false) :
    onsetSearch k l = none := by
  induction l with
  | nil => rfl
  | cons b rest ih =>
    have hb : b = false := h b (List.mem_cons_self b rest)
    simp [onsetSearch, hb, ih fun x hx => h x (List.mem_cons_of_mem b hx)]

theorem detect_none_of_le (E : List ℚ) (sample_rate : ℚ) (frame_length : ℕ)
    (start_ms threshold_db : ℚ) (min_frames : ℕ) (h : ∀ e ∈ E, e ≤ threshold_db) :
    detect_onset_after E sample_rate frame_length start_ms threshold_db min_frames =
      none := by
  unfold detect_onset_after
  dsimp only
  have hsearch : onsetSearch min_frames
      ((E.drop (detectStartIdx E.length sample_rate start_ms)).map
        (fun e => decide (threshold_db < e))) = none := by
    apply onsetSearch_all_false
    intro b hb
    rcases List.mem_map.mp hb with ⟨e, he, rfl⟩
    simp only [decide_eq_false_iff_not]
    exact not_lt.mpr (h e (List.mem_of_mem_drop he))
  rw [hsearch]

theorem preLen_pos (playback_end_rel sample_rate : ℚ) :
    1 ≤ preLen playback_end_rel sample_rate := by
  unfold preLen
  have h1 : (1 : ℤ) ≤ ⌊max 1 (playback_end_rel / 1000 * sample_rate)⌋ := by
    apply Int.le_floor.mpr
    push_cast
    exact le_max_left _ _
  omega

theorem preRegion_ne_nil (E : List ℚ) (playback_end_rel sample_rate : ℚ)
    (hE : E ≠ []) : preRegion E playback_end_rel sample_rate ≠ [] := by
  unfold preRegion
  have := preLen_pos playback_end_rel sample_rate
  simp only [ne_eq, List.take_eq_nil_iff]
  push_neg
  exact ⟨by omega, hE⟩

theorem percentile75_const (xs : List ℚ) (c : ℚ) (hne : xs ≠ [])
    (h : ∀ x ∈ xs, x = c) : percentile75 xs = c := by
  unfold percentile75
  dsimp only
  set s := List.insertionSort (fun a b : ℚ => a ≤ b) xs with hs
  have hmem : ∀ x ∈ s, x = c := fun x hx =>
    h x (((List.perm_insertionSort (fun a b : ℚ => a ≤ b) xs).mem_iff).mp hx)
  have hpos : 0 < s.length := by
    rw [hs, (List.perm_insertionSort _ xs).length_eq]
    exact List.length_pos.mpr hne
  have hlow : ((s.length - 1) * 3) / 4 < s.length := by omega
  have ha : s.getD (((s.length - 1) * 3) / 4) 0 = c := by
    rw [List.getD_eq_getElem _ _ hlow]
    exact hmem _ (List.getElem_mem hlow)
  by_cases hb : ((s.length - 1) * 3) / 4 + 1 < s.length
  · have hbv : s.getD (((s.length - 1) * 3) / 4 + 1)
        (s.getD (((s.length - 1) * 3) / 4) 0) = c := by
      rw [List.getD_eq_getElem _ _ hb]
      exact hmem _ (List.getElem_mem hb)
    rw [hbv, ha]
    ring
  · have hbv : s.getD (((s.length - 1) * 3) / 4 + 1)
        (s.getD (((s.length - 1) * 3) / 4) 0) =
        s.getD (((s.length - 1) * 3) / 4) 0 := by
      apply List.getD_eq_default
      omega
    rw [hbv, ha]
    ring

/-- C4: a readable recording that is silence throughout yields
no_speech_detected with onset and latency both none (never 0): the 1e-12
floor keeps every energy value at 10 * log10(1e-12) = -120 dB, which is at
or below the static threshold (whenever that threshold is at least -120 dB,
as the default -40 dB is) and strictly below the fallback threshold, which
is at least the -120 dB noise floor plus 6 dB. -/
theorem silence_yields_no_speech (log10 : ℚ → ℚ) (threshold_db frame_ms : ℚ)
    (min_frames : ℕ) (guard_ms : ℚ) (row : Row) (signal : List ℚ)
    (sample_rate : ℚ)
    (hrow : row.audio = AudioData.readable signal sample_rate)
    (_hsig : signal ≠ []) (hz : ∀ s ∈ signal, s = 0)
    (hlog : log10 (1 / 10 ^ 12) = -12) (hth : -120 ≤ threshold_db) :
    (analyzeRow log10 threshold_db frame_ms min_frames guard_ms row).status =
      Status.no_speech_detected ∧
    (analyzeRow log10 threshold_db frame_ms min_frames
      guard_ms row).onset_ms_from_recording_start = none ∧
    (analyzeRow log10 threshold_db frame_ms min_frames
      guard_ms row).latency_ms_from_playback_end = none := by
  have hEc : ∀ y ∈ (rolling_energy_db log10 signal sample_rate frame_ms).1,
      y = -120 := by
    intro y hy
    rw [rolling_energy_db_const log10 signal sample_rate frame_ms hz y hy, hlog]
    ring
  have hEne : (rolling_energy_db log10 signal sample_rate frame_ms).1 ≠ [] :=
    rolling_energy_db_ne_nil log10 signal sample_rate frame_ms
  have h1 : detect_onset_after (rolling_energy_db log10 signal sample_rate frame_ms).1
      sample_rate (rolling_energy_db log10 signal sample_rate frame_ms).2
      (playbackEndRel row + guard_ms) threshold_db min_frames = none := by
    apply detect_none_of_le
    intro e he
    rw [hEc e he]
    linarith
  have hpre_ne : preRegion (rolling_energy_db log10 signal sample_rate frame_ms).1
      (playbackEndRel row) sample_rate ≠ [] :=
    preRegion_ne_nil _ _ _ hEne
  have hpreb : (preRegion (rolling_energy_db log10 signal sample_rate frame_ms).1
      (playbackEndRel row) sample_rate).isEmpty = false := by
    simpa [List.isEmpty_iff] using hpre_ne
  have hp75 : percentile75 (preRegion
      (rolling_energy_db log10 signal sample_rate frame_ms).1
      (playbackEndRel row) sample_rate) = -120 :=
    percentile75_const _ _ hpre_ne fun x hx => hEc x (List.mem_of_mem_take hx)
  have h2 : detect_onset_after (rolling_energy_db log10 signal sample_rate frame_ms).1
      sample_rate (rolling_energy_db log10 signal sample_rate frame_ms).2
      (playbackEndRel row + guard_ms)
      (max (threshold_db - 5) (percentile75 (preRegion
        (rolling_energy_db log10 signal sample_rate frame_ms).1
        (playbackEndRel row) sample_rate) + 6)) min_frames = none := by
    apply detect_none_of_le
    intro e he
    rw [hEc e he, hp75]
    have hmax : (-120 : ℚ) + 6 ≤ max (threshold_db - 5) ((-120 : ℚ) + 6) :=
      le_max_right _ _
    linarith
  rw [analyzeRow_readable log10 threshold_db frame_ms min_frames guard_ms row
    signal sample_rate hrow]
  unfold analyzeReadable
  dsimp only
  rw [h1]
  simp only [Option.isNone_none, hpreb, Bool.not_false, Bool.and_self, if_true, h2]
  exact ⟨trivial, trivial, trivial⟩

/-- C4 witness: the all-zero one-second-style recording at the default
parameters is marked no_speech_detected with no onset and no latency. -/
theorem silence_yields_no_speech_witness :
    (analyzeRow (fun _ => -12) (-40) 10 4 50
        { audio := AudioData.readable [0, 0, 0] 44100, playback_end_ms := 0,
          recording_start_ms := 0, fields := [] }).status =
      Status.no_speech_detected ∧
    (analyzeRow (fun _ => -12) (-40) 10 4 50
        { audio := AudioData.readable [0, 0, 0] 44100, playback_end_ms := 0,
          recording_start_ms := 0, fields := [] }).onset_ms_from_recording_start =
      none ∧
    (analyzeRow (fun _ => -12) (-40) 10 4 50
        { audio := AudioData.readable [0, 0, 0] 44100, playback_end_ms := 0,
          recording_start_ms := 0, fields := [] }).latency_ms_from_playback_end =
      none :=
  silence_yields_no_speech (fun _ => -12) (-40) 10 4 50
    { audio := AudioData.readable [0, 0, 0] 44100, playback_end_ms := 0,
      recording_start_ms := 0, fields := [] } [0, 0, 0] 44100 rfl
    (by simp) (by intro s hs; simpa using hs) rfl (by norm_num)

theorem pyRound_ge (q : ℚ) : q - 1 / 2 ≤ (pyRound q : ℚ) := by
  unfold pyRound
  dsimp only
  have hf : ((⌊q⌋ : ℤ) : ℚ) ≤ q := Int.floor_le q
  have hf2 : q < (⌊q⌋ : ℚ) + 1 := Int.lt_floor_add_one q
  split_ifs with h1 h2 h3 <;> push_cast <;> linarith

theorem onsetSearch_lt_length (k : ℕ) (l : List Bool) (i : ℕ)
    (h : onsetSearch k l = some i) : i < l.length := by
  induction l generalizing i with
  | nil => simp [onsetSearch] at h
  | cons b rest ih =>
    simp only [onsetSearch] at h
    split_ifs at h with hb hk hall
    all_goals first
      | exact Option.noConfusion h
      | (obtain rfl := Option.some.inj h
         simp only [List.length_cons]
         omega)
      | (rcases Option.map_eq_some'.mp h with ⟨j, hj, rfl⟩
         have := ih j hj
         simp only [List.length_cons]
         omega)

theorem frameLength_pos (sample_rate frame_ms : ℚ) :
    1 ≤ frameLength sample_rate frame_ms := by
  unfold frameLength
  omega

theorem rolling_energy_db_frame_pos (log10 : ℚ → ℚ) (signal : List ℚ)
    (sample_rate frame_ms : ℚ) :
    1 ≤ (rolling_energy_db log10 signal sample_rate frame_ms).2 :=
  frameLength_pos sample_rate frame_ms

theorem detect_some_ge_start (E : List ℚ) (sample_rate : ℚ) (frame_length : ℕ)
    (start_ms threshold_db : ℚ) (min_frames : ℕ) (m : ℚ)
    (hsr : 0 < sample_rate) (hL : 1 ≤ frame_length)
    (h : detect_onset_after E sample_rate frame_length start_ms threshold_db
      min_frames = some m) : start_ms ≤ m := by
  unfold detect_onset_after at h
  dsimp only at h
  rcases hsearch : onsetSearch min_frames
      ((E.drop (detectStartIdx E.length sample_rate start_ms)).map
        (fun e => decide (threshold_db < e))) with _ | i
  · rw [hsearch] at h
    exact absurd h (by simp)
  · rw [hsearch] at h
    have hm := (Option.some.inj h).symm
    have hi := onsetSearch_lt_length _ _ _ hsearch
    have hlen : i < E.length - detectStartIdx E.length sample_rate start_ms := by
      simpa using hi
    have hslt : detectStartIdx E.length sample_rate start_ms < E.length := by omega
    have hss : pyRound (start_ms / 1000 * sample_rate) ≤
        (detectStartIdx E.length sample_rate start_ms : ℤ) := by
      have hdef : detectStartIdx E.length sample_rate start_ms =
          min E.length (max 0 (pyRound (start_ms / 1000 * sample_rate))).toNat := rfl
      omega
    have hnum : start_ms / 1000 * sample_rate ≤
        ((detectStartIdx E.length sample_rate start_ms + i : ℕ) : ℚ) +
          (frame_length : ℚ) / 2 := by
      have hr := pyRound_ge (start_ms / 1000 * sample_rate)
      have hcast : ((pyRound (start_ms / 1000 * sample_rate) : ℤ) : ℚ) ≤
          ((detectStartIdx E.length sample_rate start_ms + i : ℕ) : ℚ) := by
        have : (pyRound (start_ms / 1000 * sample_rate) : ℤ) ≤
            ((detectStartIdx E.length sample_rate start_ms + i : ℕ) : ℤ) := by omega
        exact_mod_cast this
      have hLq : (1 : ℚ) ≤ (frame_length : ℚ) := by exact_mod_cast hL
      linarith
    rw [hm, div_mul_eq_mul_div, le_div_iff hsr]
    linarith

theorem analyzeReadable_onset_detect (log10 : ℚ → ℚ) (threshold_db frame_ms : ℚ)
    (min_frames : ℕ) (guard_ms : ℚ) (row : Row) (signal : List ℚ)
    (sample_rate m : ℚ)
    (h : (analyzeReadable log10 threshold_db frame_ms min_frames guard_ms row
      signal sample_rate).onset_ms_from_recording_start = some m) :
    (∃ t : ℚ, detect_onset_after
      (rolling_energy_db log10 signal sample_rate frame_ms).1 sample_rate
      (rolling_energy_db log10 signal sample_rate frame_ms).2
      (playbackEndRel row + guard_ms) t min_frames = some m) ∧
    (analyzeReadable log10 threshold_db frame_ms min_frames guard_ms row
      signal sample_rate).latency_ms_from_playback_end =
      some (m - playbackEndRel row) := by
  unfold analyzeReadable at h ⊢
  dsimp only at h ⊢
  by_cases hfb : ((detect_onset_after
      (rolling_energy_db log10 signal sample_rate frame_ms).1 sample_rate
      (rolling_energy_db log10 signal sample_rate frame_ms).2
      (playbackEndRel row + guard_ms) threshold_db min_frames).isNone &&
      !(preRegion (rolling_energy_db log10 signal sample_rate frame_ms).1
        (playbackEndRel row) sample_rate).isEmpty) = true
  · simp only [hfb, if_true] at h ⊢
    rcases hd : detect_onset_after
        (rolling_energy_db log10 signal sample_rate frame_ms).1 sample_rate
        (rolling_energy_db log10 signal sample_rate frame_ms).2
        (playbackEndRel row + guard_ms)
        (max (threshold_db - 5)
          (percentile75 (preRegion
            (rolling_energy_db log10 signal sample_rate frame_ms).1
            (playbackEndRel row) sample_rate) + 6)) min_frames with _ | m2
    · rw [hd] at h
      simp at h
    · rw [hd] at h
      have hm2 : m2 = m := by simpa using h
      subst hm2
      exact ⟨⟨_, hd⟩, rfl⟩
  · simp only [Bool.not_eq_true] at hfb
    simp only [hfb, Bool.false_eq_true, if_false] at h ⊢
    rcases hd : detect_onset_after
        (rolling_energy_db log10 signal sample_rate frame_ms).1 sample_rate
        (rolling_energy_db log10 signal sample_rate frame_ms).2
        (playbackEndRel row + guard_ms) threshold_db min_frames with _ | m2
    · rw [hd] at h
      simp at h
    · rw [hd] at h
      have hm2 : m2 = m := by simpa using h
      subst hm2
      exact ⟨⟨_, hd⟩, rfl⟩

/-- C10: whenever the analyzer (primary pass or fallback pass) reports an
onset for a readable row, the reported onset time is at least the guarded
search start playback_end_ms_rel + guard_ms, so the derived latency equals
onset minus playback_end_ms_rel and is at least guard_ms; in particular no
onset inside the guard interval or before playback end is ever reported. -/
theorem onset_respects_guard (log10 : ℚ → ℚ) (threshold_db frame_ms : ℚ)
    (min_frames : ℕ) (guard_ms : ℚ) (row : Row) (signal : List ℚ)
    (sample_rate m : ℚ)
    (hrow : row.audio = AudioData.readable signal sample_rate)
    (hsr : 0 < sample_rate) (hg : 0 ≤ guard_ms)
    (h : (analyzeRow log10 threshold_db frame_ms min_frames guard_ms
      row).onset_ms_from_recording_start = some m) :
    playbackEndRel row + guard_ms ≤ m ∧
    (analyzeRow log10 threshold_db frame_ms min_frames
      guard_ms row).latency_ms_from_playback_end = some (m - playbackEndRel row) ∧
    guard_ms ≤ m - playbackEndRel row ∧
    playbackEndRel row ≤ m := by
  rw [analyzeRow_readable log10 threshold_db frame_ms min_frames guard_ms row
    signal sample_rate hrow] at h ⊢
  obtain ⟨⟨t, hdet⟩, hlat⟩ := analyzeReadable_onset_detect log10 threshold_db
    frame_ms min_frames guard_ms row signal sample_rate m h
  have h1 : playbackEndRel row + guard_ms ≤ m :=
    detect_some_ge_start _ _ _ _ _ _ _ hsr
      (rolling_energy_db_frame_pos log10 signal sample_rate frame_ms) hdet
  exact ⟨h1, hlat, by linarith, by linarith⟩

/-- C10 witness: a loud recording detected right at the guarded start still
reports an onset at or after that start with the matching latency. -/
theorem onset_respects_guard_witness :
    playbackEndRel rowLoud + 0 ≤ 1 / 2 ∧
    (analyzeRow (fun _ => 0) (-40) 1 4 0 rowLoud).latency_ms_from_playback_end =
      some (1 / 2 - playbackEndRel rowLoud) ∧
    0 ≤ 1 / 2 - playbackEndRel rowLoud ∧
    playbackEndRel rowLoud ≤ 1 / 2 :=
  onset_respects_guard (fun _ => 0) (-40) 1 4 0 rowLoud [1, 1, 1, 1] 1000 (1 / 2)
    rfl (by norm_num) (by norm_num)
    (by
      have hE : rolling_energy_db (fun _ => (0 : ℚ)) [1, 1, 1, 1] 1000 1 =
          ([0, 0, 0, 0], 1) := by
        norm_num [rolling_energy_db, frameLength, convValidMean, pyRound,
          List.range_succ]
      have hrel : playbackEndRel rowLoud = 0 := by
        norm_num [playbackEndRel, rowLoud]
      have hdet : detect_onset_after [0, 0, 0, 0] 1000 1 (0 + 0) (-40) 4 =
          some (1 / 2) := by
        norm_num [detect_onset_after, detectStartIdx, pyRound, onsetSearch]
      rw [analyzeRow_readable (fun _ => 0) (-40) 1 4 0 rowLoud [1, 1, 1, 1]
        1000 rfl]
      unfold analyzeReadable
      dsimp only
      rw [hE]
      dsimp only
      rw [hrel, hdet]
      rfl)

theorem sorted_onsetLT_of_nodup (out : List Ev) (hnd : (out.map Ev.onset).Nodup)
    (hs : out.Sorted onsetLE) : out.Sorted onsetLT := by
  have hpw : out.Pairwise fun a b => a.onset ≠ b.onset := List.pairwise_map.mp hnd
  exact (hs.and hpw).imp fun h => lt_of_le_of_ne h.1 h.2

/-- C3 (amended): the persisted detailed log is a permutation of the
emitted events sorted by onset ascending; when all onset values are
distinct the sorted permutation is unique, so re-sorting the already
persisted log can only return it unchanged.  Stability on equal onsets is
not part of the contract of the sort the code calls. -/
theorem detailed_log_sorted (inp out out2 : List Ev) (h : saveValid inp out) :
    out.Perm inp ∧ out.Sorted onsetLE ∧
    ((inp.map Ev.onset).Nodup → saveValid out out2 → out2 = out) := by
  refine ⟨h.1, h.2, fun hnd h2 => ?_⟩
  have hout_nd : (out.map Ev.onset).Nodup := ((h.1.map Ev.onset).nodup_iff).mpr hnd
  have hout2_nd : (out2.map Ev.onset).Nodup :=
    ((h2.1.map Ev.onset).nodup_iff).mpr hout_nd
  exact List.eq_of_perm_of_sorted h2.1
    (sorted_onsetLT_of_nodup out2 hout2_nd h2.2)
    (sorted_onsetLT_of_nodup out hout_nd h.2)

/-- C3 witness: a two-event log with distinct onsets emitted out of order
is persisted sorted, and re-sorting it is the identity. -/
theorem detailed_log_sorted_witness :
    ([⟨(1 : ℚ), (1 : ℕ)⟩, ⟨2, 0⟩] : List Ev).Perm [⟨2, 0⟩, ⟨1, 1⟩] ∧
    ([⟨(1 : ℚ), (1 : ℕ)⟩, ⟨2, 0⟩] : List Ev).Sorted onsetLE ∧
    ((([⟨(2 : ℚ), (0 : ℕ)⟩, ⟨1, 1⟩] : List Ev).map Ev.onset).Nodup →
      saveValid [⟨(1 : ℚ), (1 : ℕ)⟩, ⟨2, 0⟩] [⟨(1 : ℚ), (1 : ℕ)⟩, ⟨2, 0⟩] →
      ([⟨(1 : ℚ), (1 : ℕ)⟩, ⟨2, 0⟩] : List Ev) = [⟨(1 : ℚ), (1 : ℕ)⟩, ⟨2, 0⟩]) :=
  detailed_log_sorted [⟨2, 0⟩, ⟨1, 1⟩] [⟨1, 1⟩, ⟨2, 0⟩] [⟨1, 1⟩, ⟨2, 0⟩]
    ⟨List.Perm.swap _ _ _, by decide⟩

/-- C3 counterexample: two events share the onset 1 and are emitted with
tags 0 then 1; the reversed order is also a permutation sorted by onset, so
it satisfies everything the sort call of save_detailed_log guarantees, yet
it differs from the stable ties-by-emission-order result.  The emission
order of ties is therefore not preserved by the contract the code relies
on, and re-sorting is not forced to return the same sequence. -/
theorem detailed_log_stability_counterexample :
    saveValid [⟨1, 0⟩, ⟨1, 1⟩] [⟨1, 1⟩, ⟨1, 0⟩] ∧
    stableByOnset [⟨1, 0⟩, ⟨1, 1⟩] = [⟨1, 0⟩, ⟨1, 1⟩] ∧
    ([⟨(1 : ℚ), (1 : ℕ)⟩, ⟨1, 0⟩] : List Ev) ≠ [⟨1, 0⟩, ⟨1, 1⟩] := by
  refine ⟨⟨List.Perm.swap _ _ _, by decide⟩, by decide, by decide⟩

theorem runShift (b : Bool) (rest : List Bool) (k j : ℕ) :
    ((j + 1) + k ≤ (b :: rest).length ∧
      (((b :: rest).drop (j + 1)).take k).all (fun x => x) = true) ↔
    (j + k ≤ rest.length ∧ ((rest.drop j).take k).all (fun x => x) = true) := by
  simp only [List.length_cons, List.drop_succ_cons]
  constructor
  · rintro ⟨h1, h2⟩
    exact ⟨by omega, h2⟩
  · rintro ⟨h1, h2⟩
    exact ⟨by omega, h2⟩

theorem onsetSearch_none_spec (k : ℕ) (hk : 1 ≤ k) (l : List Bool)
    (h : onsetSearch k l = none) (i : ℕ) :
    ¬(i + k ≤ l.length ∧ ((l.drop i).take k).all (fun x => x) = true) := by
  induction l generalizing i with
  | nil =>
    rintro ⟨h1, -⟩
    simp only [List.length_nil] at h1
    omega
  | cons b rest ih =>
    simp only [onsetSearch] at h
    by_cases hb : b = true
    · rw [if_pos hb] at h
      by_cases hk2 : k ≤ rest.length + 1
      · rw [if_pos hk2] at h
        by_cases hall : ((b :: rest).take k).all (fun x => x) = true
        · rw [if_pos hall] at h
          exact Option.noConfusion h
        · rw [if_neg hall] at h
          have hrest : onsetSearch k rest = none := Option.map_eq_none'.mp h
          rcases i with _ | j
          · rintro ⟨-, h2⟩
            rw [List.drop_zero] at h2
            exact hall h2
          · intro hP
            exact ih hrest j ((runShift b rest k j).mp hP)
      · rw [if_neg hk2] at h
        rintro ⟨h1, -⟩
        simp only [List.length_cons] at h1
        omega
    · rw [if_neg hb] at h
      have hrest : onsetSearch k rest = none := Option.map_eq_none'.mp h
      rcases i with _ | j
      · rintro ⟨-, h2⟩
        obtain ⟨k', rfl⟩ : ∃ k', k = k' + 1 := ⟨k - 1, by omega⟩
        have hbf : b = false := by simpa using hb
        subst hbf
        rw [List.drop_zero, List.take_succ_cons] at h2
        simp at h2
      · intro hP
        exact ih hrest j ((runShift b rest k j).mp hP)

theorem onsetSearch_some_spec (k : ℕ) (hk : 1 ≤ k) (l : List Bool) (i : ℕ)
    (h : onsetSearch k l = some i) :
    (i + k ≤ l.length ∧ ((l.drop i).take k).all (fun x => x) = true) ∧
    ∀ j, j < i →
      ¬(j + k ≤ l.length ∧ ((l.drop j).take k).all (fun x => x) = true) := by
  induction l generalizing i with
  | nil => exact Option.noConfusion h
  | cons b rest ih =>
    simp only [onsetSearch] at h
    by_cases hb : b = true
    · rw [if_pos hb] at h
      by_cases hk2 : k ≤ rest.length + 1
      · rw [if_pos hk2] at h
        by_cases hall : ((b :: rest).take k).all (fun x => x) = true
        · rw [if_pos hall] at h
          obtain rfl : (0 : ℕ) = i := Option.some.inj h
          refine ⟨⟨by simp only [List.length_cons]; omega, by rwa [List.drop_zero]⟩, ?_⟩
          intro j hj
          exact absurd hj (Nat.not_lt_zero j)
        · rw [if_neg hall] at h
          rcases Option.map_eq_some'.mp h with ⟨j0, hj0, rfl⟩
          obtain ⟨hP0, hmin0⟩ := ih j0 hj0
          refine ⟨(runShift b rest k j0).mpr hP0, ?_⟩
          intro j hj
          rcases j with _ | j'
          · rintro ⟨-, h2⟩
            rw [List.drop_zero] at h2
            exact hall h2
          · intro hP
            exact hmin0 j' (by omega) ((runShift b rest k j').mp hP)
      · rw [if_neg hk2] at h
        exact Option.noConfusion h
    · rw [if_neg hb] at h
      rcases Option.map_eq_some'.mp h with ⟨j0, hj0, rfl⟩
      obtain ⟨hP0, hmin0⟩ := ih j0 hj0
      refine ⟨(runShift b rest k j0).mpr hP0, ?_⟩
      intro j hj
      rcases j with _ | j'
      · rintro ⟨-, h2⟩
        obtain ⟨k', rfl⟩ : ∃ k', k = k' + 1 := ⟨k - 1, by omega⟩
        have hbf : b = false := by simpa using hb
        subst hbf
        rw [List.drop_zero, List.take_succ_cons] at h2
        simp at h2
      · intro hP
        exact hmin0 j' (by omega) ((runShift b rest k j').mp hP)

theorem all_map_id (l : List ℚ) (f : ℚ → Bool) :
    ((l.map f).all fun x => x) = l.all f := by
  induction l with
  | nil => rfl
  | cons a t ih => simp [ih]

theorem qualifies_iff_above (E : List ℚ) (threshold_db : ℚ) (k s i : ℕ)
    (hs : s ≤ E.length) :
    qualifies E threshold_db k (s + i) = true ↔
    (i + k ≤ ((E.drop s).map (fun e => decide (threshold_db < e))).length ∧
      ((((E.drop s).map (fun e => decide (threshold_db < e))).drop i).take k).all
        (fun x => x) = true) := by
  unfold qualifies
  rw [Bool.and_eq_true, decide_eq_true_eq]
  simp only [List.length_map, List.length_drop]
  have hlist : (((E.drop s).map (fun e => decide (threshold_db < e))).drop i).take k =
      ((E.drop (s + i)).take k).map (fun e => decide (threshold_db < e)) := by
    rw [← List.map_drop, ← List.map_take, List.drop_drop]
  rw [hlist, all_map_id]
  constructor
  · rintro ⟨h1, h2⟩
    exact ⟨by omega, h2⟩
  · rintro ⟨h1, h2⟩
    exact ⟨by omega, h2⟩

theorem below_startIdx_impossible (E : List ℚ) (sample_rate start_ms : ℚ) (i : ℕ)
    (h1 : pyRound (start_ms / 1000 * sample_rate) ≤ (i : ℤ))
    (h2 : i < detectStartIdx E.length sample_rate start_ms) : False := by
  have hdef : detectStartIdx E.length sample_rate start_ms =
      min E.length (max 0 (pyRound (start_ms / 1000 * sample_rate))).toNat := rfl
  omega

/-- C1 (amended to min_frames at least 1): for every energy array, sample
rate, threshold, frame length and positive min_frames, detect_onset_after
returns the onset at the first index at or after the converted search start
whose run of min_frames consecutive frames fits in the array and strictly
exceeds the threshold, reported as the center of the first qualifying frame
(i + frame_length / 2) / sample_rate * 1000; and it returns none exactly
when no index at or after the search start carries such a run. -/
theorem detect_onset_after_spec (E : List ℚ) (sample_rate : ℚ)
    (frame_length : ℕ) (start_ms threshold_db : ℚ) (min_frames : ℕ)
    (hk : 1 ≤ min_frames) :
    (∀ m, detect_onset_after E sample_rate frame_length start_ms threshold_db
        min_frames = some m →
      ∃ i : ℕ, pyRound (start_ms / 1000 * sample_rate) ≤ (i : ℤ) ∧
        qualifies E threshold_db min_frames i = true ∧
        (∀ j : ℕ, pyRound (start_ms / 1000 * sample_rate) ≤ (j : ℤ) → j < i →
          qualifies E threshold_db min_frames j = false) ∧
        m = ((i : ℚ) + (frame_length : ℚ) / 2) / sample_rate * 1000) ∧
    (detect_onset_after E sample_rate frame_length start_ms threshold_db
        min_frames = none →
      ∀ i : ℕ, pyRound (start_ms / 1000 * sample_rate) ≤ (i : ℤ) →
        qualifies E threshold_db min_frames i = false) := by
  have hsleE : detectStartIdx E.length sample_rate start_ms ≤ E.length :=
    min_le_left _ _
  constructor
  · intro m hm
    unfold detect_onset_after at hm
    dsimp only at hm
    rcases hsearch : onsetSearch min_frames
        ((E.drop (detectStartIdx E.length sample_rate start_ms)).map
          (fun e => decide (threshold_db < e))) with _ | irel
    · rw [hsearch] at hm
      exact Option.noConfusion hm
    · rw [hsearch] at hm
      have hmval := (Option.some.inj hm).symm
      obtain ⟨hP, hmin⟩ := onsetSearch_some_spec min_frames hk _ irel hsearch
      have hlb : pyRound (start_ms / 1000 * sample_rate) ≤
          (detectStartIdx E.length sample_rate start_ms : ℤ) := by
        have hlt : detectStartIdx E.length sample_rate start_ms < E.length := by
          have h1 := hP.1
          simp only [List.length_map, List.length_drop] at h1
          omega
        have hdef : detectStartIdx E.length sample_rate start_ms =
            min E.length (max 0 (pyRound (start_ms / 1000 * sample_rate))).toNat :=
          rfl
        omega
      refine ⟨detectStartIdx E.length sample_rate start_ms + irel, ?_, ?_, ?_, ?_⟩
      · have : (detectStartIdx E.length sample_rate start_ms : ℤ) ≤
            ((detectStartIdx E.length sample_rate start_ms + irel : ℕ) : ℤ) := by
          omega
        omega
      · exact (qualifies_iff_above E threshold_db min_frames _ irel hsleE).mpr hP
      · intro j hj hjlt
        by_cases hcase : j < detectStartIdx E.length sample_rate start_ms
        · exact absurd (below_startIdx_impossible E sample_rate start_ms j hj hcase)
            (fun hf => hf)
        · push_neg at hcase
          have hsplit : j = detectStartIdx E.length sample_rate start_ms +
              (j - detectStartIdx E.length sample_rate start_ms) := by omega
          rw [hsplit]
          rcases hq : qualifies E threshold_db min_frames
              (detectStartIdx E.length sample_rate start_ms +
                (j - detectStartIdx E.length sample_rate start_ms)) with _ | _
          · rfl
          · exact absurd ((qualifies_iff_above E threshold_db min_frames _ _
              hsleE).mp hq) (hmin _ (by omega))
      · exact hmval
  · intro hnone i hi
    unfold detect_onset_after at hnone
    dsimp only at hnone
    rcases hsearch : onsetSearch min_frames
        ((E.drop (detectStartIdx E.length sample_rate start_ms)).map
          (fun e => decide (threshold_db < e))) with _ | irel
    · have hall := onsetSearch_none_spec min_frames hk _ hsearch
      by_cases hcase : i < detectStartIdx E.length sample_rate start_ms
      · exact absurd (below_startIdx_impossible E sample_rate start_ms i hi hcase)
          (fun hf => hf)
      · push_neg at hcase
        have hsplit : i = detectStartIdx E.length sample_rate start_ms +
            (i - detectStartIdx E.length sample_rate start_ms) := by omega
        rw [hsplit]
        rcases hq : qualifies E threshold_db min_frames
            (detectStartIdx E.length sample_rate start_ms +
              (i - detectStartIdx E.length sample_rate start_ms)) with _ | _
        · rfl
        · exact absurd ((qualifies_iff_above E threshold_db min_frames _ _
            hsleE).mp hq) (hall _)
    · rw [hsearch] at hnone
      exact Option.noConfusion hnone

/-- C1 witness: on a concrete energy array with a loud tail, the detector
returns the first qualifying index with its center-of-frame onset time. -/
theorem detect_onset_after_spec_witness :
    ∃ i : ℕ, pyRound (0 / 1000 * 1000) ≤ (i : ℤ) ∧
      qualifies [-50, 0, 0, 0, 0] (-40) 4 i = true ∧
      (∀ j : ℕ, pyRound (0 / 1000 * 1000) ≤ (j : ℤ) → j < i →
        qualifies [-50, 0, 0, 0, 0] (-40) 4 j = false) ∧
      (3 : ℚ) / 2 = ((i : ℚ) + (1 : ℚ) / 2) / 1000 * 1000 :=
  (detect_onset_after_spec [-50, 0, 0, 0, 0] 1000 1 0 (-40) 4 (by norm_num)).1
    (3 / 2)
    (by norm_num [detect_onset_after, detectStartIdx, pyRound, onsetSearch])

/-- C1 counterexample: with min_frames = 0 the claim as stated fails.  On
the energy array [-50] with threshold -40 and search start 0, index 0 is at
the search start and its run of zero consecutive frames fits in the array
and vacuously exceeds the threshold, so the claim requires the onset at
index 0; but the loop of detect_onset_after only ever inspects indices
whose own frame is above threshold, so it returns none. -/
theorem detect_onset_after_zero_frames_counterexample :
    detect_onset_after [-50] 1000 1 0 (-40) 0 = none ∧
    qualifies [-50] (-40) 0 0 = true ∧
    pyRound (0 / 1000 * 1000) ≤ ((0 : ℕ) : ℤ) := by
  refine ⟨?_, ?_, ?_⟩
  · norm_num [detect_onset_after, detectStartIdx, pyRound, onsetSearch]
  · norm_num [qualifies]
  · norm_num [pyRound]
